import Mathlib

/-!
Verification development for the hashcat-wpa-server attack orchestration
core: the command builder and progress monitor of
`app/attack/hashcat_cmd.py` and the strategy-pipeline guards of
`app/worker.py`.  Python functions are shallowly embedded as executable
Lean definitions over `List Char` and `String`; Python floats are
modelled by rationals (every value the claims mention is exactly
representable); fallible code is modelled with `Option` or explicit
outcome types.
-/

namespace HashcatWpa

/-- Whitespace set of Python `str.split()` with no arguments:
space, tab, newline, carriage return, vertical tab, form feed. -/
def pyIsSpace (c : Char) : Bool :=
  c = ' ' || c = '\t' || c = '\n' || c = '\r' || c = '\x0b' || c = '\x0c'

/-- Helper for `pySplit`: whitespace-tokenize a character list,
accumulating the current token; runs of whitespace are collapsed and no
empty tokens are produced, matching Python `str.split()`. -/
def splitWsAux : List Char → List Char → List (List Char)
  | cur, [] => if cur = [] then [] else [cur]
  | cur, c :: rest =>
    if pyIsSpace c then
      if cur = [] then splitWsAux [] rest else cur :: splitWsAux [] rest
    else
      splitWsAux (cur ++ [c]) rest

/-- Model of Python `line.split()` (no separator argument). -/
def pySplit (s : String) : List String :=
  (splitWsAux [] s.data).map String.mk

/-- Model of Python `list.index(x)` returning `none` where Python raises
`ValueError` (element absent). -/
def pyIndex? (xs : List String) (t : String) : Option Nat :=
  match xs with
  | [] => none
  | x :: rest => if x = t then some 0 else (pyIndex? rest t).map (· + 1)

/-- Model of Python `s.startswith(pre)`. -/
def strStarts (s pre : String) : Bool :=
  pre.data.isPrefixOf s.data

/-- Decimal digit list to value, `none` if empty or a non-digit occurs. -/
def digitsVal? : List Char → Option Nat
  | [] => none
  | [c] => if c.isDigit then some (c.toNat - '0'.toNat) else none
  | c :: rest =>
    if c.isDigit then
      (digitsVal? rest).map (fun v => (c.toNat - '0'.toNat) * 10 ^ rest.length + v)
    else none

/-- Model of Python `int(s)` on decimal literals: surrounding whitespace
is stripped, an optional single sign is allowed, then one or more
digits; every other input yields `none` where Python raises
`ValueError`.  (Underscore digit grouping is not modelled; no claim
involves it.) -/
def pyInt? (s : String) : Option Int :=
  let trimmed := ((s.data.dropWhile pyIsSpace).reverse.dropWhile pyIsSpace).reverse
  match trimmed with
  | '+' :: rest => (digitsVal? rest).map (fun v => (v : Int))
  | '-' :: rest => (digitsVal? rest).map (fun v => -(v : Int))
  | rest => (digitsVal? rest).map (fun v => (v : Int))

/-- Join a list of lines with newlines, as Python `'\n'.join(lines)`. -/
def joinLines : List String → String
  | [] => ""
  | [x] => x
  | x :: xs => x ++ "\n" ++ joinLines xs

/-- Substring containment, as Python `pat in hay`. -/
def containsSub (hay pat : String) : Bool :=
  (List.range (hay.data.length + 1)).any
    (fun i => pat.data.isPrefixOf (hay.data.drop i))

/-! ### `shlex.quote` and a shell-compatible word splitter -/

/-- Characters left unquoted by `shlex.quote` (complement of CPython's
`_find_unsafe` pattern under re.ASCII): ASCII alphanumerics, underscore
and the characters at-sign, percent, plus, equals, colon, comma, dot,
slash, hyphen. -/
def safeChar (c : Char) : Bool :=
  ('a' ≤ c && c ≤ 'z') || ('A' ≤ c && c ≤ 'Z') || ('0' ≤ c && c ≤ '9') ||
    c = '_' || c = '@' || c = '%' || c = '+' || c = '=' || c = ':' ||
    c = ',' || c = '.' || c = '/' || c = '-'

/-- Replacement performed inside `shlex.quote`: Python
`s.replace("'", "'\"'\"'")` over a character list. -/
def escSq : List Char → List Char
  | [] => []
  | c :: rest =>
    (if c = '\'' then ['\'', '"', '\'', '"', '\''] else [c]) ++ escSq rest

/-- Model of CPython `shlex.quote` on a character list: the empty string
becomes `''`, a string of safe characters is returned unchanged, and any
other string is wrapped in single quotes with embedded single quotes
replaced by the five-character sequence. -/
def quoteChars (l : List Char) : List Char :=
  if l = [] then ['\'', '\'']
  else if l.all safeChar then l
  else '\'' :: (escSq l ++ ['\''])

/-- Model of `shlex.quote` at the `String` level. -/
def shlexQuote (s : String) : String :=
  String.mk (quoteChars s.data)

/-- Quoting mode of the shell word splitter. -/
inductive QMode
  | normal
  | insingle
  | indouble
  deriving DecidableEq, Repr

/-- Word-boundary whitespace of the shell splitter (default IFS). -/
def shIsSpace (c : Char) : Bool :=
  c = ' ' || c = '\t' || c = '\n'

/-- Unquoted characters the splitter refuses to interpret (operators,
globbing and expansion triggers); a word containing one of these
unquoted is not a plain literal token. -/
def shSpecial (c : Char) : Bool :=
  c = '$' || c = Char.ofNat 96 || c = '\\' || c = '|' || c = '&' || c = ';' ||
    c = '<' || c = '>' || c = '(' || c = ')' || c = '*' || c = '?' ||
    c = '[' || c = ']' || c = '~' || c = '#' || c = '!'

/-- State of the shell word splitter. -/
structure SpState where
  mode : QMode
  cur : List Char
  started : Bool
  words : List (List Char)
  err : Bool
  deriving DecidableEq, Repr

/-- Initial splitter state. -/
def spInit : SpState :=
  ⟨QMode.normal, [], false, [], false⟩

/-- One step of the POSIX-style shell word splitter: unquoted whitespace
ends a word, single quotes protect everything, double quotes protect
everything except `$`, backquote and backslash (refused), other special
characters are refused, and remaining characters are literal. -/
def spStep (st : SpState) (c : Char) : SpState :=
  if st.err then st
  else
    match st.mode with
    | QMode.normal =>
      if shIsSpace c then
        if st.started then
          { st with cur := [], started := false, words := st.words ++ [st.cur] }
        else st
      else if c = '\'' then { st with mode := QMode.insingle, started := true }
      else if c = '"' then { st with mode := QMode.indouble, started := true }
      else if shSpecial c then { st with err := true }
      else { st with cur := st.cur ++ [c], started := true }
    | QMode.insingle =>
      if c = '\'' then { st with mode := QMode.normal }
      else { st with cur := st.cur ++ [c] }
    | QMode.indouble =>
      if c = '"' then { st with mode := QMode.normal }
      else if c = '$' || c = Char.ofNat 96 || c = '\\' then { st with err := true }
      else { st with cur := st.cur ++ [c] }

/-- Run the splitter over a character list and close the final word;
`none` on a refused character or an unterminated quote. -/
def splitChars (l : List Char) : Option (List (List Char)) :=
  let st := l.foldl spStep spInit
  if st.err then none
  else
    match st.mode with
    | QMode.normal =>
      some (if st.started then st.words ++ [st.cur] else st.words)
    | _ => none

/-- Shell-compatible word splitting at the `String` level. -/
def shellSplit (s : String) : Option (List String) :=
  (splitChars s.data).map (List.map String.mk)

/-! ### Command builder (`HashcatCmd` hierarchy of `hashcat_cmd.py`) -/

/-- A `Rule` asset: the builder only uses its `path` attribute. -/
structure Rule where
  path : String
  deriving DecidableEq, Repr

/-- State of a `HashcatCmd` instance: `rules` keeps the `None` entries
exactly as `add_rule` stores them (the source filters them out only at
build time). -/
structure HashcatCmd where
  outfile : String
  mode : String := "22000"
  session : Option String := none
  rules : List (Option Rule) := []
  wordlists : List String := []
  mask : Option String := none
  hashcatArgs : List String := []
  deriving DecidableEq, Repr

/-- Model of `HashcatCmd.add_rule`. -/
def addRule (cmd : HashcatCmd) (r : Option Rule) : HashcatCmd :=
  { cmd with rules := cmd.rules ++ [r] }

/-- Model of `HashcatCmd.add_wordlists(*wordlists, options=opts)`:
the options are prepended to the new wordlists, then the whole batch is
appended to the stored list. -/
def addWordlists (cmd : HashcatCmd) (wordlists : List String)
    (options : List String) : HashcatCmd :=
  { cmd with wordlists := cmd.wordlists ++ (options ++ wordlists) }

/-- Model of `HashcatCmd.set_mask` (stores `str(mask.path)`). -/
def setMask (cmd : HashcatCmd) (maskPath : String) : HashcatCmd :=
  { cmd with mask := some maskPath }

/-- Rule tokens emitted by `build`: one `--rules=<quoted path>` token per
non-`None` stored rule, in order. -/
def rulesTokens (cmd : HashcatCmd) : List String :=
  cmd.rules.filterMap
    (fun r => r.map (fun ru => "--rules=" ++ shlexQuote ru.path))

/-- Session token emitted by `build` when a session name is set. -/
def sessionTokens (cmd : HashcatCmd) : List String :=
  match cmd.session with
  | some s => ["--session=" ++ shlexQuote s]
  | none => []

/-- Tokens of `build` that precede the class-specific block: program
name, fixed device selection, mode flag, extra args, rule tokens,
outfile token, session token. -/
def commonTokens (cmd : HashcatCmd) : List String :=
  ["hashcat", "-d 2", "-m" ++ cmd.mode] ++ cmd.hashcatArgs ++
    rulesTokens cmd ++ ["--outfile=" ++ shlexQuote cmd.outfile] ++
    sessionTokens cmd

/-- Mask or wordlist tokens of `build`: `-a3` with the raw mask when a
mask is set, otherwise each wordlist quoted, in the order stored. -/
def maskWordTokens (cmd : HashcatCmd) : List String :=
  match cmd.mask with
  | some m => ["-a3", m]
  | none => cmd.wordlists.map shlexQuote

/-- Model of `HashcatCmd.build` with the class-specific block injected
where `_populate_class_specific` appends it. -/
def buildWith (cmd : HashcatCmd) (classSpecific : List String) : List String :=
  commonTokens cmd ++ classSpecific ++ maskWordTokens cmd ++ ["--force"]

/-- Model of the base `HashcatCmd.build` (empty class-specific block). -/
def HashcatCmd.build (cmd : HashcatCmd) : List String :=
  buildWith cmd []

/-- State of a `HashcatCmdCapture` instance. -/
structure HashcatCmdCapture where
  toCmd : HashcatCmd
  hcapFile : String
  deriving DecidableEq, Repr

/-- Class-specific block of `HashcatCmdCapture`: `--potfile-disable`
exactly when the `POTFILE_DISABLE` environment value parses to a nonzero
int, then `--status`, the status timer, `--machine-readable`, and the
unquoted handshake file path, in that order. -/
def populateCapture (potfileEnv : Int) (statusTimer : Nat)
    (hcapFile : String) : List String :=
  (if potfileEnv ≠ 0 then ["--potfile-disable"] else []) ++
    ["--status", "--status-timer=" ++ toString statusTimer,
      "--machine-readable", hcapFile]

/-- Model of `HashcatCmdCapture.build`; the environment toggle and the
`HASHCAT_STATUS_TIMER` configuration value are passed explicitly. -/
def HashcatCmdCapture.build (c : HashcatCmdCapture) (potfileEnv : Int)
    (statusTimer : Nat) : List String :=
  buildWith c.toCmd (populateCapture potfileEnv statusTimer c.hcapFile)

/-- Model of `HashcatCmdStdout.build` (class-specific block `--stdout`). -/
def HashcatCmdStdout.build (cmd : HashcatCmd) : List String :=
  buildWith cmd ["--stdout"]

/-- Last token of an argument list that is positional, i.e. does not
begin with a dash; the leading program name is not an argument. -/
def lastPositional (l : List String) : Option String :=
  ((l.drop 1).filter (fun t => !(strStarts t "-"))).getLast?

/-! ### Stderr classifier (`split_warnings_errors`) -/

/-- The fixed `HASHCAT_WARNINGS` tuple, with its duplicated entry kept
exactly as in the source. -/
def HASHCAT_WARNINGS : List String :=
  ["nvmlDeviceGetCurrPcieLinkWidth",
    "nvmlDeviceGetClockInfo",
    "nvmlDeviceGetTemperatureThreshold",
    "nvmlDeviceGetUtilizationRates",
    "nvmlDeviceGetPowerManagementLimit",
    "nvmlDeviceGetUtilizationRates"]

/-- Model of the nested `is_warning` helper. -/
def isWarning (line : String) : Bool :=
  HASHCAT_WARNINGS.any (fun w => containsSub line w)

/-- Helper for `pySplitlines`: split a character list at newlines; a
final fragment is emitted only when nonempty, so a trailing newline adds
no empty line, matching Python `str.splitlines()` on newline-separated
text (the rarer line boundaries such as carriage return are not
modelled; no claim uses them). -/
def splitNlAux : List Char → List Char → List (List Char)
  | cur, [] => if cur = [] then [] else [cur]
  | cur, c :: rest =>
    if c = '\n' then cur :: splitNlAux [] rest
    else splitNlAux (cur ++ [c]) rest

/-- Model of Python `str.splitlines()` for newline-separated text. -/
def pySplitlines (s : String) : List String :=
  (splitNlAux [] s.data).map String.mk

/-- Classification loop of `split_warnings_errors`: empty lines are
dropped, warning lines and error lines are collected in order. -/
def splitLoop : List String → List String × List String
  | [] => ([], [])
  | l :: rest =>
    let (w, e) := splitLoop rest
    if l = "" then (w, e)
    else if isWarning l then (l :: w, e)
    else (w, l :: e)

/-- Model of `split_warnings_errors`. -/
def split_warnings_errors (stderr : String) : String × String :=
  let (w, e) := splitLoop (pySplitlines stderr)
  (joinLines w, joinLines e)

/-! ### Progress monitor (`run_with_status`) -/

/-- Result of the `try` block body on one `STATUS` line, distinguishing
the exception kinds the source can raise there. -/
inductive StatusParse
  | notStatus
  | noMarker
  | short
  | badInt
  | pair (a b : Int)
  deriving DecidableEq, Repr

/-- Parse one stdout line as the source does: `line.startswith("STATUS")`
guards the block; `parts.index("PROGRESS")` raises `ValueError` when the
marker is absent (`noMarker`); the two subscripts raise `IndexError`
when fewer than two tokens follow the marker (`short`); `int()` raises
`ValueError` on a non-integer token (`badInt`). -/
def statusParse (line : String) : StatusParse :=
  if strStarts line "STATUS" then
    let parts := pySplit line
    match pyIndex? parts "PROGRESS" with
    | none => StatusParse.noMarker
    | some i =>
      match parts.get? (i + 1), parts.get? (i + 2) with
      | some ta, some tb =>
        match pyInt? ta, pyInt? tb with
        | some a, some b => StatusParse.pair a b
        | _, _ => StatusParse.badInt
      | _, _ => StatusParse.short
  else StatusParse.notStatus

/-- Effect of one stdout line on the monitor.  The handler clause
`except ValueError or IndexError` evaluates to `except ValueError`, so
only `noMarker` and `badInt` are swallowed; a `short` line raises an
uncaught `IndexError` and a zero total raises an uncaught
`ZeroDivisionError`. -/
inductive LineOutcome
  | noUpdate
  | update (p : ℚ)
  | indexError
  | zeroDivError
  deriving DecidableEq, Repr

/-- Outcome of processing one stdout line, with the progress value
`100 * tried / total` computed over the rationals. -/
def processStatusLine (line : String) : LineOutcome :=
  match statusParse line with
  | StatusParse.notStatus => LineOutcome.noUpdate
  | StatusParse.noMarker => LineOutcome.noUpdate
  | StatusParse.badInt => LineOutcome.noUpdate
  | StatusParse.short => LineOutcome.indexError
  | StatusParse.pair a b =>
    if b = 0 then LineOutcome.zeroDivError
    else LineOutcome.update (100 * (a : ℚ) / (b : ℚ))

/-- The integer pair a conforming status line yields, when it yields one. -/
def lineTokens? (line : String) : Option (Int × Int) :=
  match statusParse line with
  | StatusParse.pair a b => some (a, b)
  | _ => none

/-- The progress value a line writes, when it writes one. -/
def lineProgress? (line : String) : Option ℚ :=
  match processStatusLine line with
  | LineOutcome.update p => some p
  | _ => none

/-- Modelled from the spec: `TaskInfoStatus.CANCELLED` comes from
`app.domain`, which is not among the provided sources; the spec reports
the cancellation status text as "Cancelled". -/
def CANCELLED : String := "Cancelled"

/-- One loop iteration's observable inputs: the cancellation flag as
read under the lock at the top of the iteration, the elapsed wall-clock
seconds sampled after that, and the stdout line. -/
structure RunEvent where
  cancelled : Bool
  elapsed : ℚ
  line : String
  deriving DecidableEq, Repr

/-- Exception with which `run_with_status` aborts, when it aborts. -/
inductive RunError
  | interrupted (status : String)
  | timedOut (msg : String)
  | indexError
  | zeroDiv
  deriving DecidableEq, Repr

/-- Observable result of one `run_with_status` invocation: the sequence
of values written to `lock.progress`, whether `process.terminate()` was
called, and the propagated exception if any. -/
structure RunResult where
  progressWrites : List ℚ
  terminated : Bool
  error : Option RunError
  deriving DecidableEq, Repr

/-- Timeout test: `time_spent > timeout_seconds`, where the budget is
`timeout_minutes * 60` and a `None` budget stands for infinity, which no
finite elapsed time exceeds. -/
def exceeded (timeoutMinutes : Option ℚ) (elapsed : ℚ) : Bool :=
  match timeoutMinutes with
  | none => false
  | some m => elapsed > m * 60

/-- Message of the `TimeoutError` the source raises. -/
def timeoutMsg (m : ℚ) : String :=
  "Timed out after " ++ toString m ++ " minutes"

/-- Loop of `run_with_status` over the remaining stdout lines, carrying
the progress writes so far.  Per iteration, in source order: the
cancellation flag is checked first, then the timeout, then the line is
parsed. -/
def runLoop (timeoutMinutes : Option ℚ) : List RunEvent → List ℚ → RunResult
  | [], writes => ⟨writes, false, none⟩
  | e :: rest, writes =>
    if e.cancelled then
      ⟨writes, true, some (RunError.interrupted CANCELLED)⟩
    else if exceeded timeoutMinutes e.elapsed then
      ⟨writes, true,
        some (RunError.timedOut (timeoutMsg (timeoutMinutes.getD 0)))⟩
    else
      match processStatusLine e.line with
      | LineOutcome.noUpdate => runLoop timeoutMinutes rest writes
      | LineOutcome.update p => runLoop timeoutMinutes rest (writes ++ [p])
      | LineOutcome.indexError => ⟨writes, false, some RunError.indexError⟩
      | LineOutcome.zeroDivError => ⟨writes, false, some RunError.zeroDiv⟩

/-- Model of `run_with_status` on the observable event stream. -/
def runWithStatus (timeoutMinutes : Option ℚ) (events : List RunEvent) :
    RunResult :=
  runLoop timeoutMinutes events []

/-- An event the loop passes through without aborting: not cancelled,
within the budget, and its line parses without an uncaught exception. -/
def okEvent (timeoutMinutes : Option ℚ) (e : RunEvent) : Prop :=
  e.cancelled = false ∧ exceeded timeoutMinutes e.elapsed = false ∧
    (processStatusLine e.line = LineOutcome.noUpdate ∨
      ∃ p, processStatusLine e.line = LineOutcome.update p)

/-! ### Strategy pipeline guards (`app/worker.py`) -/

/-- The filesystem facts the guards consult. -/
structure AttackFs where
  hcapExists : Bool
  keyExists : Bool
  deriving DecidableEq, Repr

/-- Per-capture attack context: the extracted identifier, the optional
user wordlist, and the filesystem state. -/
structure AttackCtx where
  essid : Option String
  wordlist : Option String
  fs : AttackFs
  deriving DecidableEq, Repr

/-- Model of `Attack.is_already_cracked`. -/
def is_already_cracked (a : AttackCtx) : Bool :=
  a.fs.keyExists

/-- Model of `Attack.is_attack_needed`. -/
def is_attack_needed (a : AttackCtx) : Bool :=
  a.fs.hcapExists && !(is_already_cracked a)

/-- One engine (hashcat) invocation performed by a strategy step. -/
inductive EngineRun
  | essidDigits
  | essidRule
  | weak
  | digits8
  | mainWordlist
  deriving DecidableEq, Repr

/-- Filesystem effect of running a batch of engine invocations: the key
file appears exactly when some invocation cracks the password (decided
by the oracle `cracked`). -/
def applyRuns (a : AttackCtx) (runs : List EngineRun)
    (cracked : EngineRun → Bool) : AttackCtx :=
  if runs.any cracked then
    { a with fs := { a.fs with keyExists := true } }
  else a

/-- Model of `Attack.cap2hccapx`: the converter writes the handshake
artifact (when it succeeds) and the identifier is parsed from its
output; it performs no engine invocation. -/
def cap2hccapx (a : AttackCtx) (parsedEssid : Option String)
    (convOk : Bool) : AttackCtx :=
  { a with essid := parsedEssid,
           fs := { a.fs with hcapExists := a.fs.hcapExists || convOk } }

/-- Model of `Attack.run_essid_attack`: skipped when no identifier was
extracted or the attack is not needed; otherwise runs the combinator and
rule sub-attacks. -/
def run_essid_attack (cracked : EngineRun → Bool) (a : AttackCtx) :
    List EngineRun × AttackCtx :=
  if a.essid.isNone then ([], a)
  else if !(is_attack_needed a) then ([], a)
  else
    let rs := [EngineRun.essidDigits, EngineRun.essidRule]
    (rs, applyRuns a rs cracked)

/-- Model of `Attack.run_weak_passwords`. -/
def run_weak_passwords (cracked : EngineRun → Bool) (a : AttackCtx) :
    List EngineRun × AttackCtx :=
  if !(is_attack_needed a) then ([], a)
  else ([EngineRun.weak], applyRuns a [EngineRun.weak] cracked)

/-- Model of `Attack.run_digits8`. -/
def run_digits8 (cracked : EngineRun → Bool) (a : AttackCtx) :
    List EngineRun × AttackCtx :=
  if !(is_attack_needed a) then ([], a)
  else ([EngineRun.digits8], applyRuns a [EngineRun.digits8] cracked)

/-- Model of `Attack.run_main_wordlist`. -/
def run_main_wordlist (cracked : EngineRun → Bool) (a : AttackCtx) :
    List EngineRun × AttackCtx :=
  if a.wordlist.isNone || !(is_attack_needed a) then ([], a)
  else ([EngineRun.mainWordlist], applyRuns a [EngineRun.mainWordlist] cracked)

/-- Model of `_crack_async`'s strategy sequence: conversion first, then
the four attack steps in source order, accumulating the engine
invocations each step performs. -/
def crack_async (cracked : EngineRun → Bool) (parsedEssid : Option String)
    (convOk : Bool) (a : AttackCtx) : List EngineRun × AttackCtx :=
  let a0 := cap2hccapx a parsedEssid convOk
  let (r1, a1) := run_essid_attack cracked a0
  let (r2, a2) := run_weak_passwords cracked a1
  let (r3, a3) := run_digits8 cracked a2
  let (r4, a4) := run_main_wordlist cracked a3
  (r1 ++ r2 ++ r3 ++ r4, a4)

/-! ### Statement abbreviations -/

/-- The non-empty lines of a stderr block, in order. -/
def nonEmptyLines (s : String) : List String :=
  (pySplitlines s).filter (fun l => l != "")

/-- The non-empty lines classified as warnings, in order. -/
def warnLines (s : String) : List String :=
  (nonEmptyLines s).filter isWarning

/-- The non-empty lines classified as errors, in order. -/
def errLines (s : String) : List String :=
  (nonEmptyLines s).filter (fun l => !(isWarning l))

/-- Progress values an event stream yields line by line. -/
def lineWrites (events : List RunEvent) : List ℚ :=
  events.filterMap (fun e => lineProgress? e.line)

/-- The spec's example status stream: `PROGRESS 50 200` then
`PROGRESS 200 200`. -/
def exampleEvents : List RunEvent :=
  [⟨false, 0, "STATUS 0 PROGRESS 50 200 SPEED"⟩,
    ⟨false, 0, "STATUS 0 PROGRESS 200 200 SPEED"⟩]

/-! ## Theorems -/

/-- A string extending a non-prefix is a different string. -/
theorem append_ne (p s t : String)
    (h : p.data.isPrefixOf t.data = false) : p ++ s ≠ t := by
  intro he
  have hd : p.data ++ s.data = t.data := by
    rw [← he]
    exact (String.data_append p s).symm
  have hp : p.data.isPrefixOf t.data = true := by
    rw [ List.isPrefixOf_iff_prefix]
    exact ⟨s.data, hd⟩
  rw [hp] at h
  exact Bool.noConfusion h

/-- The classification loop is filtering: warnings are the non-empty
lines containing a benign pattern, errors the remaining non-empty
lines, each in original order. -/
theorem splitLoop_eq (ls : List String) :
    splitLoop ls = (ls.filter (fun l => (l != "") && isWarning l),
      ls.filter (fun l => (l != "") && !(isWarning l))) := by
  induction ls with
  | nil => rfl
  | cons l rest ih =>
    by_cases h0 : l = ""
    · subst h0
      simp [splitLoop, ih]
    · cases hw : isWarning l <;>
        simp [splitLoop, ih, h0, hw]

/-- C10: a `None` rule entry contributes no token: `build` emits a
`--rules=` token only for non-`None` rules, so `add_rule(None)` leaves
the built argument list identical to never having called `add_rule`
(and, the model being total, raises no error), while a real rule
appends exactly its quoted token. -/
theorem none_rule_contributes_nothing (cmd : HashcatCmd) :
    (addRule cmd none).build = cmd.build ∧
    rulesTokens (addRule cmd none) = rulesTokens cmd ∧
    ∀ r : Rule, rulesTokens (addRule cmd (some r)) =
      rulesTokens cmd ++ ["--rules=" ++ shlexQuote r.path] := by
  refine ⟨?_, ?_, ?_⟩
  · simp [HashcatCmd.build, buildWith, commonTokens, rulesTokens, addRule,
      maskWordTokens, sessionTokens]
  · simp [rulesTokens, addRule]
  · intro r
    simp [rulesTokens, addRule]

/-- C2 (code bug): the handler clause `except ValueError or IndexError`
catches only `ValueError`; a `STATUS` line whose `PROGRESS` marker is
followed by fewer than two tokens raises an uncaught `IndexError`
instead of being silently ignored, aborting the run, while the
missing-marker and non-integer cases are indeed swallowed. -/
theorem short_status_line_raises :
    statusParse "STATUS PROGRESS" = StatusParse.short ∧
    runWithStatus none [⟨false, 0, "STATUS PROGRESS"⟩] =
      ⟨[], false, some RunError.indexError⟩ ∧
    processStatusLine "STATUS NOMARKER 1 2" = LineOutcome.noUpdate ∧
    processStatusLine "STATUS PROGRESS x 200" = LineOutcome.noUpdate ∧
    processStatusLine "STATUS PROGRESS 50" = LineOutcome.indexError := by
  refine ⟨by decide, ?_, by decide, by decide, by decide⟩
  decide

/-- C5: `split_warnings_errors` partitions the non-empty lines
losslessly: the outputs are the newline-joins of the warning and error
lines (filters of the non-empty lines, hence order-preserving), the two
line lists together are a permutation of the non-empty lines, every
non-empty line lands in exactly one of them, and the empty line in
neither. -/
theorem split_warnings_errors_partition (s : String) :
    split_warnings_errors s = (joinLines (warnLines s), joinLines (errLines s)) ∧
    (warnLines s ++ errLines s).Perm (nonEmptyLines s) ∧
    (∀ l ∈ nonEmptyLines s,
      (l ∈ warnLines s ∧ l ∉ errLines s) ∨
        (l ∈ errLines s ∧ l ∉ warnLines s)) ∧
    "" ∉ warnLines s ∧ "" ∉ errLines s := by
  have hw : warnLines s = (pySplitlines s).filter (fun l => (l != "") && isWarning l) := by
    simp only [warnLines, nonEmptyLines, List.filter_filter]
    exact List.filter_congr (fun a _ => Bool.and_comm _ _)
  have he : errLines s = (pySplitlines s).filter (fun l => (l != "") && !(isWarning l)) := by
    simp only [errLines, nonEmptyLines, List.filter_filter]
    exact List.filter_congr (fun a _ => Bool.and_comm _ _)
  refine ⟨?_, ?_, ?_, ?_, ?_⟩
  · rw [split_warnings_errors, splitLoop_eq, ← hw, ← he]
  · have := List.filter_append_perm (fun l => isWarning l) (nonEmptyLines s)
    simpa [warnLines, errLines] using this
  · intro l hl
    cases hwl : isWarning l with
    | true =>
      left
      constructor
      · simp [warnLines, List.mem_filter, hl, hwl]
      · simp [errLines, List.mem_filter, hwl]
    | false =>
      right
      constructor
      · simp [errLines, List.mem_filter, hl, hwl]
      · simp [warnLines, List.mem_filter, hwl]
  · intro hmem
    rw [hw] at hmem
    simp [List.mem_filter] at hmem
  · intro hmem
    rw [he] at hmem
    simp [List.mem_filter] at hmem

/-- Witness for C5 on the spec's example stderr block: the benign line
goes to warnings, the genuine error line to errors, via the partition
theorem applied at that block. -/
theorem split_warnings_errors_partition_witness :
    split_warnings_errors "nvmlDeviceGetClockInfo failed\nSegmentation fault\n" =
      (joinLines (warnLines "nvmlDeviceGetClockInfo failed\nSegmentation fault\n"),
        joinLines (errLines "nvmlDeviceGetClockInfo failed\nSegmentation fault\n")) ∧
    (("Segmentation fault" ∈
        warnLines "nvmlDeviceGetClockInfo failed\nSegmentation fault\n" ∧
      "Segmentation fault" ∉
        errLines "nvmlDeviceGetClockInfo failed\nSegmentation fault\n") ∨
      ("Segmentation fault" ∈
        errLines "nvmlDeviceGetClockInfo failed\nSegmentation fault\n" ∧
      "Segmentation fault" ∉
        warnLines "nvmlDeviceGetClockInfo failed\nSegmentation fault\n")) :=
  ⟨(split_warnings_errors_partition
      "nvmlDeviceGetClockInfo failed\nSegmentation fault\n").1,
    (split_warnings_errors_partition
      "nvmlDeviceGetClockInfo failed\nSegmentation fault\n").2.2.1
      "Segmentation fault" (by decide)⟩

/-- C1: masks and wordlists are mutually exclusive in `build`: with a
mask set the result is the common tokens, `-a3`, the mask and `--force`
(identical to building with no wordlists at all), and with no mask the
configured wordlists are appended in order with no `-a3` token anywhere
(provided no extra argument or quoted wordlist coincides with the
literal `-a3`). -/
theorem mask_wordlists_exclusive (cmd : HashcatCmd) :
    (∀ m, cmd.mask = some m →
      cmd.build = commonTokens cmd ++ ["-a3", m, "--force"] ∧
      cmd.build = HashcatCmd.build { cmd with wordlists := [] }) ∧
    (cmd.mask = none →
      cmd.build = commonTokens cmd ++ cmd.wordlists.map shlexQuote ++ ["--force"] ∧
      ("-a3" ∉ cmd.hashcatArgs → "-a3" ∉ cmd.wordlists.map shlexQuote →
        "-a3" ∉ cmd.build)) := by
  constructor
  · intro m hm
    constructor
    · simp [HashcatCmd.build, buildWith, maskWordTokens, hm]
    · simp [HashcatCmd.build, buildWith, maskWordTokens, commonTokens,
        rulesTokens, sessionTokens, hm]
  · intro hm
    constructor
    · simp [HashcatCmd.build, buildWith, maskWordTokens, hm]
    · intro ha hw hmem
      simp only [HashcatCmd.build, buildWith, maskWordTokens, hm,
        commonTokens, List.append_assoc, List.mem_append, List.mem_cons,
        List.mem_singleton, List.not_mem_nil, or_false, false_or] at hmem
      rcases hmem with (h | h | h) | h | h | h | h | h | h
      · exact absurd h (by decide)
      · exact absurd h (by decide)
      · exact append_ne "-m" cmd.mode "-a3" (by decide) h.symm
      · exact ha h
      · rw [rulesTokens] at h
        rcases List.mem_filterMap.mp h with ⟨r, _, hr⟩
        rcases r with _ | ru
        · exact Option.noConfusion hr
        · exact append_ne "--rules=" (shlexQuote ru.path) "-a3" (by decide)
            (Option.some.inj hr)
      · exact append_ne "--outfile=" (shlexQuote cmd.outfile) "-a3" (by decide)
          h.symm
      · rw [sessionTokens] at h
        rcases hs : cmd.session with _ | sess
        · rw [hs] at h
          exact absurd h (List.not_mem_nil _)
        · rw [hs] at h
          have h2 := List.mem_singleton.mp h
          exact append_ne "--session=" (shlexQuote sess) "-a3" (by decide) h2.symm
      · exact hw h
      · exact absurd h (by decide)

/-- Witness for C1: with a mask set the wordlists are discarded, and
with no mask the built command of a one-wordlist spec has no `-a3`
token, both via the exclusion theorem at concrete specs. -/
theorem mask_wordlists_exclusive_witness :
    HashcatCmd.build
        { outfile := "o.key", mask := some "m.hcmask", wordlists := ["w.txt"] } =
      HashcatCmd.build
        { outfile := "o.key", mask := some "m.hcmask", wordlists := [] } ∧
    "-a3" ∉ HashcatCmd.build { outfile := "o.key", wordlists := ["w.txt"] } :=
  ⟨((mask_wordlists_exclusive
      { outfile := "o.key", mask := some "m.hcmask", wordlists := ["w.txt"] }).1
      "m.hcmask" rfl).2,
    ((mask_wordlists_exclusive
      { outfile := "o.key", wordlists := ["w.txt"] }).2 rfl).2
      (by decide) (by decide)⟩

/-- The last surviving element of a filtered list ending in a kept
element followed by a dropped one. -/
theorem getLast?_filter_concat (p : String → Bool) (l : List String)
    (x y : String) (hx : p x = true) (hy : p y = false) :
    ((l ++ [x, y]).filter p).getLast? = some x := by
  have h2 : l ++ [x, y] = (l ++ [x]) ++ [y] := by simp
  rw [h2, List.filter_append, List.filter_append]
  have hfy : List.filter p [y] = [] := by simp [List.filter, hy]
  have hfx : List.filter p [x] = [x] := by simp [List.filter, hx]
  rw [hfy, hfx, List.append_nil, List.getLast?_concat]

/-- C4 (amended): the capture build is the common tokens, then
`--potfile-disable` exactly when the environment toggle is nonzero, then
`--status`, the timer, `--machine-readable` and the handshake path in
that fixed order, then the mask or wordlist tokens and the trailing
`--force`; the handshake path is the final positional argument whenever
no wordlists and no mask are configured (it precedes any wordlist or
mask tokens otherwise). -/
theorem capture_build_layout (c : HashcatCmdCapture) (potfileEnv : Int)
    (statusTimer : Nat) :
    c.build potfileEnv statusTimer =
      commonTokens c.toCmd ++
        (if potfileEnv ≠ 0 then ["--potfile-disable"] else []) ++
        ["--status", "--status-timer=" ++ toString statusTimer,
          "--machine-readable", c.hcapFile] ++
        maskWordTokens c.toCmd ++ ["--force"] ∧
    (c.toCmd.wordlists = [] → c.toCmd.mask = none →
      strStarts c.hcapFile "-" = false →
      lastPositional (c.build potfileEnv statusTimer) = some c.hcapFile) := by
  constructor
  · simp [HashcatCmdCapture.build, buildWith, populateCapture]
  · intro hwl hm hdash
    have hshape : c.build potfileEnv statusTimer =
        "hashcat" :: ((["-d 2", "-m" ++ c.toCmd.mode] ++ c.toCmd.hashcatArgs ++
          rulesTokens c.toCmd ++ ["--outfile=" ++ shlexQuote c.toCmd.outfile] ++
          sessionTokens c.toCmd ++
          (if potfileEnv ≠ 0 then ["--potfile-disable"] else []) ++
          ["--status", "--status-timer=" ++ toString statusTimer,
            "--machine-readable"]) ++ [c.hcapFile, "--force"]) := by
      simp [HashcatCmdCapture.build, buildWith, commonTokens, populateCapture,
        maskWordTokens, hm, hwl]
    rw [hshape, lastPositional, List.drop_succ_cons, List.drop_zero]
    exact getLast?_filter_concat _ _ _ _ (by rw [hdash]; rfl) (by decide)

/-- Witness for C4: on a concrete capture spec with the debug toggle set
and no wordlists, the handshake path is the final positional argument,
via the layout theorem. -/
theorem capture_build_layout_witness :
    lastPositional
        (HashcatCmdCapture.build ⟨{ outfile := "k.key" }, "cap.hccapx"⟩ 1 20) =
      some "cap.hccapx" :=
  (capture_build_layout ⟨{ outfile := "k.key" }, "cap.hccapx"⟩ 1 20).2
    rfl rfl (by decide)

/-- Counterexample for C4 as stated: with a wordlist configured, the
wordlist token follows the handshake path, so the handshake path is not
the final positional argument of the built command. -/
theorem capture_final_positional_counterexample :
    lastPositional
        (HashcatCmdCapture.build
          ⟨{ outfile := "k.key", wordlists := ["w.txt"] }, "cap.hccapx"⟩ 0 20) =
      some "w.txt" ∧
    some "w.txt" ≠ some ("cap.hccapx" : String) := by
  constructor
  · decide
  · decide

/-- Reduction of `processStatusLine` on a parsed pair. -/
theorem processStatusLine_eq_pair (line : String) (a b : Int)
    (hs : statusParse line = StatusParse.pair a b) :
    processStatusLine line =
      if b = 0 then LineOutcome.zeroDivError
      else LineOutcome.update (100 * (a : ℚ) / (b : ℚ)) := by
  rw [processStatusLine, hs]

/-- A conforming pair makes the line write exactly `100 * a / b`. -/
theorem update_of_tokens (line : String) (a b : Int)
    (ht : lineTokens? line = some (a, b)) (hb : b ≠ 0) :
    processStatusLine line = LineOutcome.update (100 * (a : ℚ) / (b : ℚ)) := by
  rw [lineTokens?] at ht
  cases hs : statusParse line <;> rw [hs] at ht <;> try exact Option.noConfusion ht
  case pair a2 b2 =>
    have h2 := Option.some.inj ht
    injection h2 with h3 h4
    subst h3
    subst h4
    rw [processStatusLine_eq_pair line a2 b2 hs, if_neg hb]

/-- A written update comes from a conforming pair with nonzero total. -/
theorem tokens_of_update (line : String) (p : ℚ)
    (h : processStatusLine line = LineOutcome.update p) :
    ∃ a b, lineTokens? line = some (a, b) ∧ b ≠ 0 ∧
      p = 100 * (a : ℚ) / (b : ℚ) := by
  cases hs : statusParse line
  case pair a b =>
    rw [processStatusLine_eq_pair line a b hs] at h
    by_cases hb : b = 0
    · rw [if_pos hb] at h
      exact absurd h (by simp)
    · rw [if_neg hb] at h
      refine ⟨a, b, ?_, hb, (LineOutcome.update.inj h).symm⟩
      rw [lineTokens?, hs]
  all_goals rw [processStatusLine, hs] at h
  all_goals exact absurd h (by simp)

/-- A line that writes nothing contributes nothing to `lineWrites`. -/
theorem lineWrites_cons_noUpdate (e : RunEvent) (rest : List RunEvent)
    (hp : processStatusLine e.line = LineOutcome.noUpdate) :
    lineWrites (e :: rest) = lineWrites rest := by
  simp [lineWrites, List.filterMap_cons, lineProgress?, hp]

/-- A line that writes `p` prepends it to `lineWrites`. -/
theorem lineWrites_cons_update (e : RunEvent) (rest : List RunEvent) (p : ℚ)
    (hp : processStatusLine e.line = LineOutcome.update p) :
    lineWrites (e :: rest) = p :: lineWrites rest := by
  simp [lineWrites, List.filterMap_cons, lineProgress?, hp]

/-- The loop passes through a block of unexceptional events, appending
exactly their per-line progress values. -/
theorem runLoop_ok_append (tm : Option ℚ) (pre l : List RunEvent)
    (ws : List ℚ) (h : ∀ e ∈ pre, okEvent tm e) :
    runLoop tm (pre ++ l) ws = runLoop tm l (ws ++ lineWrites pre) := by
  induction pre generalizing ws with
  | nil => simp [lineWrites]
  | cons e rest ih =>
    obtain ⟨hc, hex, hp⟩ := h e (List.mem_cons_self e rest)
    have hrest : ∀ f ∈ rest, okEvent tm f :=
      fun f hf => h f (List.mem_cons_of_mem e hf)
    rcases hp with hp | ⟨p, hp⟩
    · rw [List.cons_append, runLoop.eq_def]
      simp only [hc, hex, hp, Bool.false_eq_true, if_false]
      rw [ih ws hrest, lineWrites_cons_noUpdate e rest hp]
    · rw [List.cons_append, runLoop.eq_def]
      simp only [hc, hex, hp, Bool.false_eq_true, if_false]
      rw [ih (ws ++ [p]) hrest, lineWrites_cons_update e rest p hp]
      simp

/-- Whatever happens downstream, the writes of a run are the starting
writes extended by an initial segment of the per-line values. -/
theorem runLoop_writes_prefixed (tm : Option ℚ) :
    ∀ (events : List RunEvent) (ws : List ℚ),
      ∃ k, (runLoop tm events ws).progressWrites =
        ws ++ (lineWrites events).take k := by
  intro events
  induction events with
  | nil => exact fun ws => ⟨0, by simp [runLoop]⟩
  | cons e rest ih =>
    intro ws
    by_cases hc : e.cancelled = true
    · exact ⟨0, by simp [runLoop, hc]⟩
    · have hc2 : e.cancelled = false := by simpa using hc
      by_cases hex : exceeded tm e.elapsed = true
      · exact ⟨0, by simp [runLoop, hc2, hex]⟩
      · have hex2 : exceeded tm e.elapsed = false := by simpa using hex
        cases hp : processStatusLine e.line with
        | noUpdate =>
          obtain ⟨k, hk⟩ := ih ws
          refine ⟨k, ?_⟩
          rw [runLoop.eq_def]
          simp only [hc2, hex2, hp, Bool.false_eq_true, if_false]
          rw [hk, lineWrites_cons_noUpdate e rest hp]
        | update p =>
          obtain ⟨k, hk⟩ := ih (ws ++ [p])
          refine ⟨k + 1, ?_⟩
          rw [runLoop.eq_def]
          simp only [hc2, hex2, hp, Bool.false_eq_true, if_false]
          rw [hk, lineWrites_cons_update e rest p hp, List.take_succ_cons]
          simp
        | indexError =>
          refine ⟨0, ?_⟩
          rw [runLoop.eq_def]
          simp [hc2, hex2, hp]
        | zeroDivError =>
          refine ⟨0, ?_⟩
          rw [runLoop.eq_def]
          simp [hc2, hex2, hp]

/-- Bounds propagate through the loop when every parsed pair is
conforming. -/
theorem runLoop_writes_bounded (tm : Option ℚ) :
    ∀ (events : List RunEvent) (ws : List ℚ),
      (∀ e ∈ events, ∀ a b, lineTokens? e.line = some (a, b) →
        0 ≤ a ∧ a ≤ b ∧ b ≠ 0) →
      (∀ p ∈ ws, 0 ≤ p ∧ p ≤ 100) →
      ∀ p ∈ (runLoop tm events ws).progressWrites, 0 ≤ p ∧ p ≤ 100 := by
  intro events
  induction events with
  | nil =>
    intro ws _ hws
    simpa [runLoop] using hws
  | cons e rest ih =>
    intro ws hev hws
    have hrest : ∀ f ∈ rest, ∀ a b, lineTokens? f.line = some (a, b) →
        0 ≤ a ∧ a ≤ b ∧ b ≠ 0 :=
      fun f hf => hev f (List.mem_cons_of_mem e hf)
    by_cases hc : e.cancelled = true
    · simpa [runLoop, hc] using hws
    · have hc2 : e.cancelled = false := by simpa using hc
      by_cases hex : exceeded tm e.elapsed = true
      · simpa [runLoop, hc2, hex] using hws
      · have hex2 : exceeded tm e.elapsed = false := by simpa using hex
        cases hp : processStatusLine e.line with
        | noUpdate =>
          rw [runLoop.eq_def]
          simp only [hc2, hex2, hp, Bool.false_eq_true, if_false]
          exact ih ws hrest hws
        | update p =>
          rw [runLoop.eq_def]
          simp only [hc2, hex2, hp, Bool.false_eq_true, if_false]
          refine ih (ws ++ [p]) hrest ?_
          intro q hq
          rcases List.mem_append.mp hq with hq | hq
          · exact hws q hq
          · obtain ⟨a, b, hab, hb, hpv⟩ := tokens_of_update e.line p hp
            obtain ⟨ha, hab, _⟩ := hev e (List.mem_cons_self e rest) a b hab
            have hq2 : q = p := List.mem_singleton.mp hq
            subst hq2
            subst hpv
            have hbpos : (0 : ℚ) < (b : ℚ) := by
              have : (0 : Int) < b := by omega
              exact_mod_cast this
            constructor
            · apply div_nonneg
              · have : (0 : ℚ) ≤ (a : ℚ) := by exact_mod_cast ha
                nlinarith
              · exact le_of_lt hbpos
            · rw [div_le_iff₀ hbpos]
              have : (a : ℚ) ≤ (b : ℚ) := by exact_mod_cast hab
              nlinarith
        | indexError =>
          rw [runLoop.eq_def]
          simpa [hc2, hex2, hp] using hws
        | zeroDivError =>
          rw [runLoop.eq_def]
          simpa [hc2, hex2, hp] using hws

/-- Evaluation of the example stream's first line. -/
theorem ex_line1_update :
    processStatusLine "STATUS 0 PROGRESS 50 200 SPEED" =
      LineOutcome.update 25 := by
  have hs : statusParse "STATUS 0 PROGRESS 50 200 SPEED" =
      StatusParse.pair 50 200 := by decide
  rw [processStatusLine_eq_pair _ _ _ hs, if_neg (by norm_num)]
  norm_num

/-- Evaluation of the example stream's second line. -/
theorem ex_line2_update :
    processStatusLine "STATUS 0 PROGRESS 200 200 SPEED" =
      LineOutcome.update 100 := by
  have hs : statusParse "STATUS 0 PROGRESS 200 200 SPEED" =
      StatusParse.pair 200 200 := by decide
  rw [processStatusLine_eq_pair _ _ _ hs, if_neg (by norm_num)]
  norm_num

/-- Evaluation of a regressing status line. -/
theorem cx_lineA_update :
    processStatusLine "STATUS 0 PROGRESS 100 200 SPEED" =
      LineOutcome.update 50 := by
  have hs : statusParse "STATUS 0 PROGRESS 100 200 SPEED" =
      StatusParse.pair 100 200 := by decide
  rw [processStatusLine_eq_pair _ _ _ hs, if_neg (by norm_num)]
  norm_num

/-- Evaluation of an out-of-range status line. -/
theorem cx_lineB_update :
    processStatusLine "STATUS 0 PROGRESS 300 100 SPEED" =
      LineOutcome.update 300 := by
  have hs : statusParse "STATUS 0 PROGRESS 300 100 SPEED" =
      StatusParse.pair 300 100 := by decide
  rw [processStatusLine_eq_pair _ _ _ hs, if_neg (by norm_num)]
  norm_num

/-- The example stream's run writes 25 then 100. -/
theorem example_writes :
    (runWithStatus none exampleEvents).progressWrites = [25, 100] := by
  simp [runWithStatus, exampleEvents, runLoop, exceeded,
    ex_line1_update, ex_line2_update]

/-- The example stream's per-line values. -/
theorem example_lineWrites : lineWrites exampleEvents = [25, 100] := by
  simp [lineWrites, exampleEvents, List.filterMap, lineProgress?,
    ex_line1_update, ex_line2_update]

/-- C3 (amended): conforming status lines write `100 * a / b` (the
spec's example stream observes 25 then 100, non-decreasing); whenever
every parsed pair satisfies `0 ≤ a ≤ b`, `b ≠ 0`, the written values lie
in `[0, 100]`; and whenever the stream's per-line values are
non-decreasing, so are the written values. -/
theorem progress_updates_conform :
    ((runWithStatus none exampleEvents).progressWrites = [25, 100] ∧
      List.Chain' (fun a b => a ≤ b)
        (runWithStatus none exampleEvents).progressWrites) ∧
    (∀ tm events,
      (∀ e ∈ events, ∀ a b, lineTokens? e.line = some (a, b) →
        0 ≤ a ∧ a ≤ b ∧ b ≠ 0) →
      ∀ p ∈ (runWithStatus tm events).progressWrites, 0 ≤ p ∧ p ≤ 100) ∧
    (∀ tm events, List.Chain' (fun a b => a ≤ b) (lineWrites events) →
      List.Chain' (fun a b => a ≤ b)
        (runWithStatus tm events).progressWrites) ∧
    (∀ line a b, lineTokens? line = some (a, b) → b ≠ 0 →
      lineProgress? line = some (100 * (a : ℚ) / (b : ℚ))) := by
  refine ⟨⟨example_writes, ?_⟩, ?_, ?_, ?_⟩
  · rw [example_writes]
    norm_num [List.chain'_cons]
  · intro tm events hev
    exact runLoop_writes_bounded tm events [] hev (by simp)
  · intro tm events hch
    obtain ⟨k, hk⟩ := runLoop_writes_prefixed tm events []
    rw [runWithStatus, hk, List.nil_append]
    exact hch.take k
  · intro line a b ht hb
    rw [lineProgress?, update_of_tokens line a b ht hb]

/-- Witness for C3: the amended theorem applied to the spec's example
stream, discharging the monotone-stream and conforming-pair hypotheses
there. -/
theorem progress_updates_conform_witness :
    List.Chain' (fun a b => a ≤ b)
      (runWithStatus none exampleEvents).progressWrites ∧
    (0 ≤ (25 : ℚ) ∧ (25 : ℚ) ≤ 100) := by
  constructor
  · refine progress_updates_conform.2.2.1 none exampleEvents ?_
    rw [example_lineWrites]
    norm_num [List.chain'_cons]
  · refine progress_updates_conform.2.1 none exampleEvents ?_ 25
      (by rw [example_writes]; simp)
    intro e he a b hab
    rcases (by simpa [exampleEvents] using he :
        e = (⟨false, 0, "STATUS 0 PROGRESS 50 200 SPEED"⟩ : RunEvent) ∨
          e = (⟨false, 0, "STATUS 0 PROGRESS 200 200 SPEED"⟩ : RunEvent)) with
      rfl | rfl
    · rw [show lineTokens? "STATUS 0 PROGRESS 50 200 SPEED" =
          some ((50 : Int), (200 : Int)) from by decide] at hab
      have h2 := Option.some.inj hab
      injection h2 with h3 h4
      subst h3
      subst h4
      refine ⟨by norm_num, by norm_num, by norm_num⟩
    · rw [show lineTokens? "STATUS 0 PROGRESS 200 200 SPEED" =
          some ((200 : Int), (200 : Int)) from by decide] at hab
      have h2 := Option.some.inj hab
      injection h2 with h3 h4
      subst h3
      subst h4
      refine ⟨by norm_num, by norm_num, by norm_num⟩

/-- Counterexample for C3 as stated: the code never clamps or orders the
written values; a stream whose pairs regress produces the decreasing
write sequence 50 then 25, and a pair with tried greater than total
produces a write above 100. -/
theorem progress_monotone_counterexample :
    (runWithStatus none
        [⟨false, 0, "STATUS 0 PROGRESS 100 200 SPEED"⟩,
          ⟨false, 0, "STATUS 0 PROGRESS 50 200 SPEED"⟩]).progressWrites =
      [50, 25] ∧
    ¬ List.Chain' (fun a b => a ≤ b)
        (runWithStatus none
          [⟨false, 0, "STATUS 0 PROGRESS 100 200 SPEED"⟩,
            ⟨false, 0, "STATUS 0 PROGRESS 50 200 SPEED"⟩]).progressWrites ∧
    (runWithStatus none
        [⟨false, 0, "STATUS 0 PROGRESS 300 100 SPEED"⟩]).progressWrites =
      [300] ∧
    ¬ (300 : ℚ) ≤ 100 := by
  have hA : (runWithStatus none
      [⟨false, 0, "STATUS 0 PROGRESS 100 200 SPEED"⟩,
        ⟨false, 0, "STATUS 0 PROGRESS 50 200 SPEED"⟩]).progressWrites =
      [50, 25] := by
    simp [runWithStatus, runLoop, exceeded, cx_lineA_update, ex_line1_update]
  have hB : (runWithStatus none
      [⟨false, 0, "STATUS 0 PROGRESS 300 100 SPEED"⟩]).progressWrites =
      [300] := by
    simp [runWithStatus, runLoop, exceeded, cx_lineB_update]
  refine ⟨hA, ?_, hB, by norm_num⟩
  rw [hA]
  norm_num [List.chain'_cons]

/-- Runs with no timeout budget never raise a timeout, whatever the
stream. -/
theorem runLoop_none_no_timeout :
    ∀ (events : List RunEvent) (ws : List ℚ) (msg : String),
      (runLoop none events ws).error ≠ some (RunError.timedOut msg) := by
  intro events
  induction events with
  | nil => intro ws msg; simp [runLoop]
  | cons e rest ih =>
    intro ws msg
    by_cases hc : e.cancelled = true
    · simp [runLoop, hc]
    · have hc2 : e.cancelled = false := by simpa using hc
      have hex2 : exceeded none e.elapsed = false := rfl
      cases hp : processStatusLine e.line with
      | noUpdate =>
        rw [runLoop.eq_def]
        simp only [hc2, hex2, hp, Bool.false_eq_true, if_false]
        exact ih ws msg
      | update p =>
        rw [runLoop.eq_def]
        simp only [hc2, hex2, hp, Bool.false_eq_true, if_false]
        exact ih (ws ++ [p]) msg
      | indexError =>
        rw [runLoop.eq_def]
        simp [hc2, hex2, hp]
      | zeroDivError =>
        rw [runLoop.eq_def]
        simp [hc2, hex2, hp]

/-- C6: when the elapsed time at a line boundary exceeds the budget of
`m` minutes (and the run reached that line), the process is terminated
and a timeout error is raised whose message contains the budget; with
the budget unset no timeout is ever signalled. -/
theorem timeout_at_line_boundary (m : ℚ) (pre rest : List RunEvent)
    (e : RunEvent) (hpre : ∀ f ∈ pre, okEvent (some m) f)
    (hc : e.cancelled = false) (ht : e.elapsed > m * 60) :
    runWithStatus (some m) (pre ++ e :: rest) =
      ⟨lineWrites pre, true, some (RunError.timedOut (timeoutMsg m))⟩ ∧
    (∃ s1 s2, timeoutMsg m = s1 ++ toString m ++ s2) ∧
    (∀ events msg,
      (runWithStatus none events).error ≠ some (RunError.timedOut msg)) := by
  refine ⟨?_, ⟨"Timed out after ", " minutes", rfl⟩,
    fun events msg => runLoop_none_no_timeout events [] msg⟩
  rw [runWithStatus, runLoop_ok_append (some m) pre (e :: rest) [] hpre,
    List.nil_append, runLoop.eq_def]
  have hex : exceeded (some m) e.elapsed = true := by
    simp [exceeded, ht]
  simp [hc, hex, timeoutMsg]

/-- Witness for C6: a concrete run with one good status line and a
one-minute budget exceeded at the second line terminates with the
timeout message, via the timeout theorem. -/
theorem timeout_at_line_boundary_witness :
    runWithStatus (some 1)
        ([⟨false, 0, "STATUS 0 PROGRESS 50 200 SPEED"⟩] ++
          ⟨false, 61, "STATUS"⟩ :: []) =
      ⟨lineWrites [⟨false, 0, "STATUS 0 PROGRESS 50 200 SPEED"⟩], true,
        some (RunError.timedOut (timeoutMsg 1))⟩ :=
  (timeout_at_line_boundary 1 [⟨false, 0, "STATUS 0 PROGRESS 50 200 SPEED"⟩]
    [] ⟨false, 61, "STATUS"⟩
    (by
      intro f hf
      rcases (by simpa using hf :
          f = (⟨false, 0, "STATUS 0 PROGRESS 50 200 SPEED"⟩ : RunEvent)) with rfl
      exact ⟨rfl, by norm_num [exceeded], Or.inr ⟨25, ex_line1_update⟩⟩)
    rfl (by norm_num)).1

/-- C7: when the cancellation flag is observed set at a line boundary,
the process is terminated and an interrupted-by-cancellation error
carrying the cancellation status is raised; the remaining lines are
never processed (the result equals that of the stream truncated at the
cancelled line). -/
theorem cancellation_stops_run (tm : Option ℚ) (pre rest : List RunEvent)
    (e : RunEvent) (hpre : ∀ f ∈ pre, okEvent tm f)
    (hc : e.cancelled = true) :
    runWithStatus tm (pre ++ e :: rest) =
      ⟨lineWrites pre, true, some (RunError.interrupted CANCELLED)⟩ ∧
    runWithStatus tm (pre ++ e :: rest) = runWithStatus tm (pre ++ [e]) := by
  have h1 : runWithStatus tm (pre ++ e :: rest) =
      ⟨lineWrites pre, true, some (RunError.interrupted CANCELLED)⟩ := by
    rw [runWithStatus, runLoop_ok_append tm pre (e :: rest) [] hpre,
      List.nil_append, runLoop.eq_def]
    simp [hc]
  have h2 : runWithStatus tm (pre ++ [e]) =
      ⟨lineWrites pre, true, some (RunError.interrupted CANCELLED)⟩ := by
    rw [runWithStatus, runLoop_ok_append tm pre [e] [] hpre,
      List.nil_append, runLoop.eq_def]
    simp [hc]
  exact ⟨h1, h1.trans h2.symm⟩

/-- Witness for C7: a concrete run cancelled at the second line
terminates with the cancellation status and ignores the rest of the
stream, via the cancellation theorem. -/
theorem cancellation_stops_run_witness :
    runWithStatus none
        ([⟨false, 0, "STATUS 0 PROGRESS 50 200 SPEED"⟩] ++
          ⟨true, 0, "STATUS 0 PROGRESS 60 200 SPEED"⟩ ::
            [⟨false, 0, "STATUS 0 PROGRESS 70 200 SPEED"⟩]) =
      ⟨lineWrites [⟨false, 0, "STATUS 0 PROGRESS 50 200 SPEED"⟩], true,
        some (RunError.interrupted CANCELLED)⟩ :=
  (cancellation_stops_run none
    [⟨false, 0, "STATUS 0 PROGRESS 50 200 SPEED"⟩]
    [⟨false, 0, "STATUS 0 PROGRESS 70 200 SPEED"⟩]
    ⟨true, 0, "STATUS 0 PROGRESS 60 200 SPEED"⟩
    (by
      intro f hf
      rcases (by simpa using hf :
          f = (⟨false, 0, "STATUS 0 PROGRESS 50 200 SPEED"⟩ : RunEvent)) with rfl
      exact ⟨rfl, rfl, Or.inr ⟨25, ex_line1_update⟩⟩)
    rfl).1

/-- C8: every strategy step's guard requires the handshake artifact to
exist and the key file to not exist, and when the key file already
exists before the strategies start no step performs any engine
invocation (the conversion step touches only the handshake artifact and
the identifier, never the key file). -/
theorem pipeline_short_circuits (a : AttackCtx) (cracked : EngineRun → Bool)
    (parsedEssid : Option String) (convOk : Bool)
    (hkey : a.fs.keyExists = true) :
    (crack_async cracked parsedEssid convOk a).1 = [] ∧
    (crack_async cracked parsedEssid convOk a).2 =
      cap2hccapx a parsedEssid convOk ∧
    (∀ b, (run_essid_attack cracked b).1 ≠ [] → is_attack_needed b = true) ∧
    (∀ b, (run_weak_passwords cracked b).1 ≠ [] → is_attack_needed b = true) ∧
    (∀ b, (run_digits8 cracked b).1 ≠ [] → is_attack_needed b = true) ∧
    (∀ b, (run_main_wordlist cracked b).1 ≠ [] → is_attack_needed b = true) := by
  have hneed : ∀ c : AttackCtx, c.fs.keyExists = true →
      is_attack_needed c = false := by
    intro c hc
    simp [is_attack_needed, is_already_cracked, hc]
  have h0 : (cap2hccapx a parsedEssid convOk).fs.keyExists = true := by
    simp [cap2hccapx, hkey]
  refine ⟨?_, ?_, ?_, ?_, ?_, ?_⟩
  · simp [crack_async, run_essid_attack, run_weak_passwords, run_digits8,
      run_main_wordlist, hneed _ h0]
  · simp [crack_async, run_essid_attack, run_weak_passwords, run_digits8,
      run_main_wordlist, hneed _ h0]
  · intro b hb
    by_cases hn : is_attack_needed b = true
    · exact hn
    · exfalso
      apply hb
      rcases he : b.essid with _ | es
      · simp [run_essid_attack, he]
      · simp [run_essid_attack, he, eq_false_of_ne_true hn]
  · intro b hb
    by_cases hn : is_attack_needed b = true
    · exact hn
    · exact absurd (by simp [run_weak_passwords, eq_false_of_ne_true hn]) hb
  · intro b hb
    by_cases hn : is_attack_needed b = true
    · exact hn
    · exact absurd (by simp [run_digits8, eq_false_of_ne_true hn]) hb
  · intro b hb
    by_cases hn : is_attack_needed b = true
    · exact hn
    · exact absurd (by simp [run_main_wordlist, eq_false_of_ne_true hn]) hb

/-- Witness for C8: a concrete context whose key file pre-exists runs
zero engine invocations even though a handshake, identifier, user
wordlist and an always-cracking engine are available, via the
short-circuit theorem. -/
theorem pipeline_short_circuits_witness :
    (crack_async (fun _ => true) (some "MyWifi") true
        ⟨none, some "w.txt", ⟨true, true⟩⟩).1 = [] :=
  (pipeline_short_circuits ⟨none, some "w.txt", ⟨true, true⟩⟩
    (fun _ => true) (some "MyWifi") true rfl).1

/-- Safe characters are ordinary to the shell: not word-splitting
whitespace, not a quote of either kind, and not a special character. -/
theorem safe_char_props (c : Char) (h : safeChar c = true) :
    shIsSpace c = false ∧ c ≠ '\'' ∧ c ≠ '"' ∧ shSpecial c = false := by
  refine ⟨?_, ?_, ?_, ?_⟩
  · cases hh : shIsSpace c with
    | false => rfl
    | true =>
      exfalso
      simp only [shIsSpace, Bool.or_eq_true, decide_eq_true_eq, or_assoc] at hh
      rcases hh with rfl | rfl | rfl <;> exact absurd h (by decide)
  · intro rfl2
    subst rfl2
    exact absurd h (by decide)
  · intro rfl2
    subst rfl2
    exact absurd h (by decide)
  · cases hh : shSpecial c with
    | false => rfl
    | true =>
      exfalso
      simp only [shSpecial, Bool.or_eq_true, decide_eq_true_eq, or_assoc] at hh
      rcases hh with rfl | rfl | rfl | rfl | rfl | rfl | rfl | rfl | rfl |
        rfl | rfl | rfl | rfl | rfl | rfl | rfl | rfl <;>
        exact absurd h (by decide)

/-- In normal mode a safe character is consumed literally. -/
theorem safe_literal_step (st : SpState) (c : Char) (hst : st.err = false)
    (hmode : st.mode = QMode.normal) (hc : safeChar c = true) :
    spStep st c = { st with cur := st.cur ++ [c], started := true } := by
  obtain ⟨h1, h2, h3, h4⟩ := safe_char_props c hc
  rw [spStep, hst, hmode]
  simp [h1, h2, h3, h4]

/-- A run of safe characters in normal mode appends them all. -/
theorem safe_literal_run (l : List Char) (hl : l.all safeChar = true) :
    ∀ (cur : List Char) (w : List (List Char)),
      List.foldl spStep ⟨QMode.normal, cur, true, w, false⟩ l =
        ⟨QMode.normal, cur ++ l, true, w, false⟩ := by
  induction l with
  | nil => intro cur w; simp
  | cons c rest ih =>
    intro cur w
    obtain ⟨hc, hrest⟩ := by
      simpa only [List.all_cons, Bool.and_eq_true] using hl
    rw [List.foldl_cons,
      safe_literal_step ⟨QMode.normal, cur, true, w, false⟩ c rfl rfl hc]
    simpa using ih hrest (cur ++ [c]) w

/-- Inside single quotes, the quote-replacement encoding of a string is
consumed back to exactly that string. -/
theorem escSq_run (l : List Char) :
    ∀ (cur : List Char) (w : List (List Char)),
      List.foldl spStep ⟨QMode.insingle, cur, true, w, false⟩ (escSq l) =
        ⟨QMode.insingle, cur ++ l, true, w, false⟩ := by
  induction l with
  | nil => intro cur w; simp [escSq]
  | cons c rest ih =>
    intro cur w
    by_cases hc : c = '\''
    · subst hc
      rw [show escSq ('\'' :: rest) =
          ['\'', '"', '\'', '"', '\''] ++ escSq rest from by simp [escSq],
        List.foldl_append]
      have h5 : List.foldl spStep ⟨QMode.insingle, cur, true, w, false⟩
          ['\'', '"', '\'', '"', '\''] =
          ⟨QMode.insingle, cur ++ ['\''], true, w, false⟩ := rfl
      rw [h5]
      simpa using ih (cur ++ ['\'']) w
    · rw [show escSq (c :: rest) = [c] ++ escSq rest from by simp [escSq, hc],
        List.foldl_append]
      have h1 : List.foldl spStep ⟨QMode.insingle, cur, true, w, false⟩ [c] =
          ⟨QMode.insingle, cur ++ [c], true, w, false⟩ := by
        simp [spStep, hc]
      rw [h1]
      simpa using ih (cur ++ [c]) w

/-- Processing the quoted form of any string from normal mode appends
exactly that string to the current word and returns to normal mode. -/
theorem quote_run (s : List Char) :
    ∀ (cur : List Char) (w : List (List Char)) (b : Bool),
      List.foldl spStep ⟨QMode.normal, cur, b, w, false⟩ (quoteChars s) =
        ⟨QMode.normal, cur ++ s, true, w, false⟩ := by
  intro cur w b
  rw [quoteChars]
  by_cases h0 : s = []
  · subst h0
    rw [if_pos rfl]
    have h2 : List.foldl spStep ⟨QMode.normal, cur, b, w, false⟩
        ['\'', '\''] = ⟨QMode.normal, cur, true, w, false⟩ := rfl
    rw [h2]
    simp
  · rw [if_neg h0]
    by_cases hsafe : s.all safeChar = true
    · rw [if_pos hsafe]
      obtain ⟨c, rest, rfl⟩ : ∃ c rest, s = c :: rest := by
        cases s with
        | nil => exact absurd rfl h0
        | cons c rest => exact ⟨c, rest, rfl⟩
      obtain ⟨hc, hrest⟩ := by
        simpa only [List.all_cons, Bool.and_eq_true] using hsafe
      rw [List.foldl_cons,
        safe_literal_step ⟨QMode.normal, cur, b, w, false⟩ c rfl rfl hc]
      simpa using safe_literal_run rest hrest (cur ++ [c]) w
    · rw [if_neg hsafe]
      have h1 : spStep ⟨QMode.normal, cur, b, w, false⟩ '\'' =
          ⟨QMode.insingle, cur, true, w, false⟩ := rfl
      rw [List.foldl_cons, h1, List.foldl_append, escSq_run s cur w]
      rfl

/-- The splitter recovers any string from its `shlex.quote` image as a
single word. -/
theorem splitChars_quote (s : List Char) :
    splitChars (quoteChars s) = some [s] := by
  have h := quote_run s [] [] false
  simp only [splitChars, spInit]
  rw [h]
  simp

/-- The splitter recovers a flag token built from a safe literal flag
body and a quoted value as a single word. -/
theorem splitChars_prefix_quote (pre s : List Char) (hpre1 : pre ≠ [])
    (hpre2 : pre.all safeChar = true) :
    splitChars (pre ++ quoteChars s) = some [pre ++ s] := by
  obtain ⟨c, rest, rfl⟩ : ∃ c rest, pre = c :: rest := by
    cases pre with
    | nil => exact absurd rfl hpre1
    | cons c rest => exact ⟨c, rest, rfl⟩
  obtain ⟨hc, hrest⟩ := by
    simpa only [List.all_cons, Bool.and_eq_true] using hpre2
  have h1 : List.foldl spStep spInit ((c :: rest) ++ quoteChars s) =
      ⟨QMode.normal, (c :: rest) ++ s, true, [], false⟩ := by
    rw [List.cons_append, List.foldl_cons, safe_literal_step spInit c rfl rfl hc]
    show List.foldl spStep ⟨QMode.normal, [c], true, [], false⟩
      (rest ++ quoteChars s) = _
    rw [List.foldl_append, safe_literal_run rest hrest [c] [],
      quote_run s ([c] ++ rest) [] true]
    simp
  simp only [splitChars]
  rw [h1]
  simp

/-- C9: every path-valued token of `build` round-trips: unescaping the
quoted token with the shell-compatible splitter yields exactly one word,
the original string — for a bare wordlist token and for the rule,
outfile and session flag tokens alike, so quoting can neither split a
path across argument boundaries nor merge it with neighbours. -/
theorem built_tokens_roundtrip (s : String) :
    shellSplit (shlexQuote s) = some [s] ∧
    shellSplit ("--rules=" ++ shlexQuote s) = some ["--rules=" ++ s] ∧
    shellSplit ("--outfile=" ++ shlexQuote s) = some ["--outfile=" ++ s] ∧
    shellSplit ("--session=" ++ shlexQuote s) = some ["--session=" ++ s] := by
  obtain ⟨sd⟩ := s
  refine ⟨?_, ?_, ?_, ?_⟩
  · rw [shellSplit, show (shlexQuote ⟨sd⟩).data = quoteChars sd from rfl,
      splitChars_quote]
    rfl
  · rw [shellSplit, show ("--rules=" ++ shlexQuote ⟨sd⟩).data =
        "--rules=".data ++ quoteChars sd from rfl,
      splitChars_prefix_quote _ _ (by decide) (by decide)]
    rfl
  · rw [shellSplit, show ("--outfile=" ++ shlexQuote ⟨sd⟩).data =
        "--outfile=".data ++ quoteChars sd from rfl,
      splitChars_prefix_quote _ _ (by decide) (by decide)]
    rfl
  · rw [shellSplit, show ("--session=" ++ shlexQuote ⟨sd⟩).data =
        "--session=".data ++ quoteChars sd from rfl,
      splitChars_prefix_quote _ _ (by decide) (by decide)]
    rfl

end HashcatWpa
